import Mathlib

/-!
A shallow embedding of the FoodExpress delivery program (`Food_delivery.py`):
the account directory (`register_user`, `login_user`), the observer channel
(`Subject` / `SearchSubject`), the catalog search (`handle_search`), the two
sort strategies (`SortByName.sort`, `SortByRating.sort`) and the cart/order
workflow (`add_to_cart`, `show_order_confirmation`, `confirm_order`).

Modelling conventions: Python strings are Lean `String` (code-point for
code-point); `str.lower()` is modelled on the ASCII range, which covers every
character the proved properties exercise; monetary amounts and ratings are
rationals (the program's floats carry exact decimal literals in all proved
scenarios); the persisted JSON collections are Lean lists, and a `saved` flag
records whether `Database.save_users` was invoked.  Fallible operations
return `Option`/`Except`.
-/

/-- ASCII lowercasing of one character, the behaviour of Python `str.lower()`
on the ASCII range (identity elsewhere in this model). -/
def lowerChar (c : Char) : Char :=
  if 'A' ≤ c ∧ c ≤ 'Z' then Char.ofNat (c.toNat + 32) else c

/-- Python `s.lower()` (ASCII model), applied code point by code point. -/
def lowerStr (s : String) : String :=
  String.mk (s.data.map lowerChar)

/-- Does the character list start with the given pattern list. -/
def startsWithL : List Char → List Char → Bool
  | _, [] => true
  | [], _ :: _ => false
  | c :: cs, d :: ds => c == d && startsWithL cs ds

/-- Python `needle in hay` on strings: some position of `hay` starts with
`needle` (always true for the empty needle). -/
def containsSub : List Char → List Char → Bool
  | [], needle => startsWithL [] needle
  | c :: cs, needle => startsWithL (c :: cs) needle || containsSub cs needle

/-- Python substring test `needle in hay` lifted to `String`. -/
def strContains (hay needle : String) : Bool :=
  containsSub hay.data needle.data

/-- Membership in the regex character class `[A-Za-z0-9]`. -/
def isLatinDigit (c : Char) : Bool :=
  (decide ('A' ≤ c) && decide (c ≤ 'Z')) ||
  (decide ('a' ≤ c) && decide (c ≤ 'z')) ||
  (decide ('0' ≤ c) && decide (c ≤ '9'))

/-- Truthiness of Python `re.match(r'^[A-Za-z0-9]+$', s)`.  Python's `$`
matches at the end of the string or just before one final newline, so the
match succeeds exactly when the string, after stripping at most one trailing
newline, is a non-empty run of `[A-Za-z0-9]` characters. -/
def pyBody (s : String) : List Char :=
  if s.data.getLast? == some '\n' then s.data.dropLast else s.data

/-- Truthiness of the whole regex application: the body is a non-empty run
of `[A-Za-z0-9]` characters. -/
def pyMatchAlnum (s : String) : Bool :=
  !(pyBody s).isEmpty && (pyBody s).all isLatinDigit

/-- Python string `<=`: lexicographic comparison by code point, a shorter
string being smaller than any of its extensions. -/
def pyStrLe : List Char → List Char → Bool
  | [], _ => true
  | _ :: _, [] => false
  | a :: xs, b :: ys =>
    if a.toNat < b.toNat then true
    else if b.toNat < a.toNat then false
    else pyStrLe xs ys

/-- The registration form assembled by `UserBuilder.build`: all eight fields,
including the repeated password. -/
structure Candidate where
  first_name : String
  last_name : String
  birth_date : String
  email : String
  login : String
  password : String
  repeat_password : String
  address : String
deriving DecidableEq

/-- One record of the persisted accounts collection (`users.json`): the
candidate fields without `repeat_password`, plus an optional `role` key
(records written by `register_user` carry `"user"`; the seeded administrator
carries `"admin"`; a hand-edited record may lack the key). -/
structure StoredUser where
  first_name : String
  last_name : String
  birth_date : String
  email : String
  login : String
  password : String
  address : String
  role : Option String
deriving DecidableEq

/-- Outcome of `UserSystemFacade.register_user`: the `(bool, message)` pair it
returns, the accounts collection as left on disk, and whether
`Database.save_users` was called. -/
structure RegResult where
  ok : Bool
  message : String
  users : List StoredUser
  saved : Bool
deriving DecidableEq

/-- The record appended on successful registration: `user_data` after
`pop('repeat_password')` and `user_data['role'] = 'user'`. -/
def finalizeCand (c : Candidate) : StoredUser :=
  { first_name := c.first_name
    last_name := c.last_name
    birth_date := c.birth_date
    email := c.email
    login := c.login
    password := c.password
    address := c.address
    role := some "user" }

/-- `UserSystemFacade.register_user`: duplicate-login check, then password
repetition check, then the `^[A-Za-z0-9]+$` regex check; on success the
finalized record is appended and the whole collection saved. -/
def register_user (users : List StoredUser) (cand : Candidate) : RegResult :=
  if users.any (fun u => u.login == cand.login) then
    ⟨false, "Логин уже существует", users, false⟩
  else if cand.password != cand.repeat_password then
    ⟨false, "Пароли не совпадают", users, false⟩
  else if !pyMatchAlnum cand.password then
    ⟨false, "Пароль должен содержать только латинские буквы и цифры", users, false⟩
  else
    ⟨true, "Регистрация прошла успешно", users ++ [finalizeCand cand], true⟩

/-- The typed account objects built by the two user creators: `AdminUser`
for stored role `"admin"`, `RegularUser` otherwise. -/
inductive UserAccount where
  | adminAcct (data : StoredUser)
  | regularAcct (data : StoredUser)
deriving DecidableEq

/-- `UserSystemFacade.login_user`: the first stored account whose login and
password both equal the given strings, wrapped by role; `none` if no match. -/
def login_user (users : List StoredUser) (login password : String) :
    Option UserAccount :=
  match users.find? (fun u => u.login == login && u.password == password) with
  | none => none
  | some u =>
    if u.role == some "admin" then some (UserAccount.adminAcct u)
    else some (UserAccount.regularAcct u)

/-- A MenuItem record inside a restaurant's persisted `menu` array. -/
structure MenuRec where
  id : Nat
  name : String
  description : String
  price : ℚ
  category : Option String
deriving DecidableEq

/-- One record of the persisted restaurants collection; `rating` is an
optional key (display and search default it to 4.5, sorting to 4.0). -/
structure RestaurantRec where
  id : Nat
  name : String
  description : String
  rating : Option ℚ
  menu : List MenuRec
deriving DecidableEq

/-- A line of the in-memory cart: the denormalized snapshot stored by
`add_to_cart` (`item.id`, `item.name`, `item.price`, restaurant name). -/
structure CartLine where
  id : Nat
  name : String
  price : ℚ
  restaurant : String
deriving DecidableEq

/-- One record of the persisted orders collection, as assembled by
`confirm_order`. -/
structure OrderRec where
  user : String
  date : String
  items : List CartLine
  address : String
  payment_method : String
  status : String
deriving DecidableEq

/-- The whole persisted state of the `Database` singleton. -/
structure Store where
  users : List StoredUser
  restaurants : List RestaurantRec
  orders : List OrderRec
deriving DecidableEq

/-- `login_user` run against the store: it only loads the users collection
and performs no save, so the store comes back unchanged. -/
def login_user_db (db : Store) (login password : String) :
    Option UserAccount × Store :=
  (login_user db.users login password, db)

/-- A search result produced by `handle_search`: the tagged union of a
restaurant-kind hit and a dish-kind hit, with exactly the fields the code
puts in each result dict. -/
inductive SearchResult where
  | restaurantHit (id : Nat) (name description : String) (rating : ℚ)
  | dishHit (restaurantId : Nat) (restaurantName name description : String)
      (price : ℚ)
deriving DecidableEq

/-- Discriminator for restaurant-kind results (`result['type'] == 'restaurant'`). -/
def isRestHit : SearchResult → Bool
  | SearchResult.restaurantHit _ _ _ _ => true
  | SearchResult.dishHit _ _ _ _ _ => false

/-- Discriminator for dish-kind results (`result['type'] == 'dish'`). -/
def isDishHit : SearchResult → Bool
  | SearchResult.restaurantHit _ _ _ _ => false
  | SearchResult.dishHit _ _ _ _ _ => true

/-- The accumulation loop of `handle_search` over an already-lowercased
query: for each restaurant in persisted order, append one restaurant hit
when the query occurs in the lowered name, then append one dish hit for each
menu item whose lowered name contains the query. -/
def searchStep (query : String) (acc : List SearchResult)
    (r : RestaurantRec) : List SearchResult :=
  r.menu.foldl
    (fun acc2 m =>
      if strContains (lowerStr m.name) query then
        acc2 ++ [SearchResult.dishHit r.id r.name m.name m.description
          m.price]
      else acc2)
    (if strContains (lowerStr r.name) query then
      acc ++ [SearchResult.restaurantHit r.id r.name r.description
        (r.rating.getD (9 / 2 : ℚ))]
    else acc)

/-- The accumulation over all restaurants, started from the empty result
list. -/
def searchLoop (restaurants : List RestaurantRec) (query : String) :
    List SearchResult :=
  restaurants.foldl (searchStep query) []

/-- Specification-side description of one restaurant's contribution to the
result sequence: the restaurant-level hit (if any) followed by that
restaurant's dish-level hits in menu order. -/
def restaurantBlock (query : String) (r : RestaurantRec) : List SearchResult :=
  (if strContains (lowerStr r.name) query then
    [SearchResult.restaurantHit r.id r.name r.description
      (r.rating.getD (9 / 2 : ℚ))]
  else []) ++
  (r.menu.filter (fun m => strContains (lowerStr m.name) query)).map
    (fun m => SearchResult.dishHit r.id r.name m.name m.description m.price)

/-- `FoodDeliveryApp.handle_search`: lowercase the query text; a falsy
(empty) lowered query clears the results and publishes nothing (`none`);
otherwise the scan runs and its result list is published. -/
def handle_search (restaurants : List RestaurantRec) (text : String) :
    Option (List SearchResult) :=
  if lowerStr text = "" then none
  else some (searchLoop restaurants (lowerStr text))

/-- The effective rating used by `SortByRating.sort`: `x.get('rating', 4.0)`. -/
def sortRating (r : RestaurantRec) : ℚ :=
  r.rating.getD 4

/-- Boolean comparator of `SortByName.sort`: ascending Python order on the
`name` key. -/
def nameLe (a b : RestaurantRec) : Bool :=
  pyStrLe a.name.data b.name.data

/-- Boolean comparator realizing `SortByRating.sort`'s descending stable
order: `a` may come before `b` when `b`'s effective rating is at most `a`'s. -/
def ratingGeB (a b : RestaurantRec) : Bool :=
  decide (sortRating b ≤ sortRating a)

/-- `SortByName.sort`: Python `sorted(items, key=lambda x: x['name'])`, a
stable ascending sort by name (stable sorts over a total preorder agree, so
`mergeSort` with the same key order is the same function). -/
def SortByName_sort (items : List RestaurantRec) : List RestaurantRec :=
  items.mergeSort nameLe

/-- `SortByRating.sort`: Python
`sorted(items, key=lambda x: x.get('rating', 4.0), reverse=True)`, a stable
descending sort by effective rating. -/
def SortByRating_sort (items : List RestaurantRec) : List RestaurantRec :=
  items.mergeSort ratingGeB

/-- Operations on the observer registry of `Subject`. -/
inductive SubjOp where
  | attachOp (o : Nat)
  | detachOp (o : Nat)
deriving DecidableEq

/-- `Subject.attach`: append the observer to the registry. -/
def attachObs (observers : List Nat) (o : Nat) : List Nat :=
  observers ++ [o]

/-- Python `list.remove`: delete the first occurrence, or fail with
`ValueError` (`none`) when the element is absent. -/
def removeFirst : List Nat → Nat → Option (List Nat)
  | [], _ => none
  | x :: xs, o =>
    if x == o then some xs
    else (removeFirst xs o).map (fun ys => x :: ys)

/-- Run a sequence of `attach`/`detach` calls from a registry state;
`none` when some `detach` raised. -/
def applyOps : List Nat → List SubjOp → Option (List Nat)
  | observers, [] => some observers
  | observers, SubjOp.attachOp o :: rest => applyOps (attachObs observers o) rest
  | observers, SubjOp.detachOp o :: rest =>
    match removeFirst observers o with
    | none => none
    | some observers2 => applyOps observers2 rest

/-- The state of a `SearchSubject`: the observer registry inherited from
`Subject` and the latest stored result set. -/
structure SearchSubjectSt where
  observers : List Nat
  results : List SearchResult
deriving DecidableEq

/-- `Subject.notify`: the synchronous fan-out, as the list of
`observer.update(message)` invocations in registry order. -/
def notifyCalls (s : SearchSubjectSt) (message : List SearchResult) :
    List (Nat × List SearchResult) :=
  s.observers.map (fun o => (o, message))

/-- `SearchSubject.update_results`: store the latest result set, then notify
every attached observer with it.  Returns the new state and the invocation
list. -/
def update_results (s : SearchSubjectSt) (results : List SearchResult) :
    SearchSubjectSt × List (Nat × List SearchResult) :=
  let s2 : SearchSubjectSt := { s with results := results }
  (s2, notifyCalls s2 results)

/-- `FoodDeliveryApp.add_to_cart`: append the selected line to the cart. -/
def add_to_cart (cart : List CartLine) (line : CartLine) : List CartLine :=
  cart ++ [line]

/-- The running total computed by `update_cart`/`show_order_confirmation`:
the sum of the line prices. -/
def cart_total (cart : List CartLine) : ℚ :=
  cart.foldl (fun t l => t + l.price) 0

/-- Rounding to two decimal places, the `{total:.2f}` presentation boundary. -/
def round2 (q : ℚ) : ℚ :=
  ((round (q * 100) : ℤ) : ℚ) / 100

/-- `FoodDeliveryApp.show_order_confirmation`: with an empty cart it warns
"Ваша корзина пуста!" and returns without reaching the confirmation page
(`none`); otherwise it proceeds, displaying the two-decimal total. -/
def show_order_confirmation (cart : List CartLine) : Option ℚ :=
  if cart.isEmpty then none
  else some (round2 (cart_total cart))

/-- `FoodDeliveryApp.confirm_order`: unconditionally build the order record
from the current user, timestamp, cart and payment label with status
"В обработке", append it to the loaded orders collection, save, and clear
the cart. -/
def confirm_order (u : StoredUser) (now payment : String)
    (cart : List CartLine) (orders : List OrderRec) :
    OrderRec × List OrderRec × List CartLine :=
  let order : OrderRec :=
    { user := u.login
      date := now
      items := cart
      address := u.address
      payment_method := payment
      status := "В обработке" }
  (order, orders ++ [order], [])

/-- The confirm workflow as the user reaches it: the
`show_order_confirmation` empty-cart gate followed by `confirm_order`.
Returns the outcome, the persisted orders collection and the cart. -/
def checkout (u : StoredUser) (now payment : String)
    (cart : List CartLine) (orders : List OrderRec) :
    Except String OrderRec × List OrderRec × List CartLine :=
  match show_order_confirmation cart with
  | none => (Except.error "Ваша корзина пуста!", orders, cart)
  | some _ =>
    let r := confirm_order u now payment cart orders
    (Except.ok r.1, r.2.1, r.2.2)

/-- The acceptance predicate of the code's password regex, stated
specification-side: the password is a non-empty run of `[A-Za-z0-9]`
characters, possibly followed by one final newline (the quirk of Python's
`$` anchor). -/
def LatinBody (s : String) : Prop :=
  ∃ body : List Char, (s.data = body ∨ s.data = body ++ ['\n']) ∧
    body ≠ [] ∧ ∀ c ∈ body, isLatinDigit c = true

/-- A registration candidate whose password ends in a newline, exercising
the `$`-anchor quirk (claim C1). -/
def candNewlineB : Candidate :=
  ⟨"Ann", "Lee", "2000-01-01", "ann@example.com", "ann", "b\n", "b\n", "Main st 1"⟩

/-- A registration candidate whose password ends in a newline, exercising
the `$`-anchor quirk (claim C4). -/
def candNewlineA : Candidate :=
  ⟨"Bob", "Ray", "2000-01-01", "bob@example.com", "bob", "a\n", "a\n", "Main st 2"⟩

/-- A well-formed registration candidate. -/
def candGood : Candidate :=
  ⟨"Carol", "Kim", "2000-01-01", "carol@example.com", "carol", "abc123",
    "abc123", "Main st 3"⟩

/-- A registration candidate reusing the seeded administrator's login. -/
def candDupAdmin : Candidate :=
  ⟨"Dora", "Own", "2000-01-01", "dora@example.com", "admin", "abc123",
    "abc123", "Main st 4"⟩

/-- The administrator record seeded at process bootstrap. -/
def adminSeed : StoredUser :=
  ⟨"Admin", "Admin", "2000-01-01", "admin@example.com", "admin", "admin123",
    "Admin Office", some "admin"⟩

/-- A cart line priced 250.00, as in the specification's scenario. -/
def lineA : CartLine :=
  ⟨1, "Pizza Margherita", 250, "Pizza Place"⟩

/-- A cart line priced 99.50, as in the specification's scenario. -/
def lineB : CartLine :=
  ⟨2, "Cola", 199 / 2, "Pizza Place"⟩

/-- A catalog whose single restaurant name contains a run of three spaces. -/
def rsSpace : List RestaurantRec :=
  [⟨1, "A   B", "", none, []⟩]

/-- A one-restaurant catalog with one dish, both names containing "Pizza". -/
def rsPizza : List RestaurantRec :=
  [⟨1, "Pizza Place", "Italian", some 4,
    [⟨1, "Pizza Margherita", "classic", 250, none⟩]⟩]

lemma any_login_eq_false {users : List StoredUser} {cand : Candidate}
    (h : ∀ u ∈ users, u.login ≠ cand.login) :
    users.any (fun u => u.login == cand.login) = false := by
  simp only [List.any_eq_false, beq_iff_eq]
  exact h

lemma any_login_eq_true {users : List StoredUser} {cand : Candidate}
    (h : ∃ u ∈ users, u.login = cand.login) :
    users.any (fun u => u.login == cand.login) = true := by
  simp only [List.any_eq_true, beq_iff_eq]
  exact h

lemma isLatinDigit_ne_newline {c : Char} (h : isLatinDigit c = true) :
    c ≠ '\n' := by
  intro hc
  subst hc
  simp [isLatinDigit] at h


lemma pyBody_of_newline {s : String} (h : s.data.getLast? = some '\n') :
    pyBody s = s.data.dropLast := by
  simp [pyBody, h]

lemma pyBody_of_other {s : String} (h : s.data.getLast? ≠ some '\n') :
    pyBody s = s.data := by
  simp [pyBody, h]

lemma pyMatchAlnum_iff (s : String) :
    pyMatchAlnum s = true ↔ LatinBody s := by
  unfold pyMatchAlnum LatinBody
  by_cases h : s.data.getLast? = some '\n'
  · have hne : s.data ≠ [] := by
      intro hnil
      rw [hnil] at h
      simp at h
    have hsplit : s.data.dropLast ++ ['\n'] = s.data := by
      have hg := List.getLast?_eq_getLast s.data hne
      rw [h] at hg
      have hlast : s.data.getLast hne = '\n' := Option.some_inj.mp hg.symm
      calc s.data.dropLast ++ ['\n']
          = s.data.dropLast ++ [s.data.getLast hne] := by rw [hlast]
        _ = s.data := List.dropLast_append_getLast hne
    rw [pyBody_of_newline h]
    constructor
    · intro hall
      simp only [Bool.and_eq_true, Bool.not_eq_true', List.all_eq_true] at hall
      refine ⟨s.data.dropLast, Or.inr hsplit.symm, ?_, hall.2⟩
      intro hnil
      rw [hnil] at hall
      simp at hall
    · rintro ⟨body, hbody, hbne, hlat⟩
      rcases hbody with hb | hb
      · exfalso
        have hmem : '\n' ∈ body := by
          rw [← hb, ← hsplit]
          simp
        exact isLatinDigit_ne_newline (hlat _ hmem) rfl
      · have hdl : s.data.dropLast = body := by rw [hb, List.dropLast_concat]
        rw [hdl]
        simp only [Bool.and_eq_true, Bool.not_eq_true', List.all_eq_true]
        refine ⟨?_, hlat⟩
        simpa [List.isEmpty_iff] using hbne
  · rw [pyBody_of_other h]
    constructor
    · intro hall
      simp only [Bool.and_eq_true, Bool.not_eq_true', List.all_eq_true] at hall
      refine ⟨s.data, Or.inl rfl, ?_, hall.2⟩
      intro hnil
      rw [hnil] at hall
      simp at hall
    · rintro ⟨body, hbody, hbne, hlat⟩
      rcases hbody with hb | hb
      · rw [hb]
        simp only [Bool.and_eq_true, Bool.not_eq_true', List.all_eq_true]
        exact ⟨by simpa [List.isEmpty_iff] using hbne, hlat⟩
      · exact absurd (by rw [hb]; exact List.getLast?_concat body) h

/-- C10: register is atomic on failure — whenever `register_user` reports
failure, the persisted accounts collection is exactly the loaded one and
`save_users` was never invoked. -/
theorem register_failure_is_atomic (users : List StoredUser) (cand : Candidate)
    (h : (register_user users cand).ok = false) :
    (register_user users cand).users = users ∧
    (register_user users cand).saved = false := by
  by_cases h1 : users.any (fun u => u.login == cand.login) = true
  · simp [register_user, h1]
  · by_cases h2 : (cand.password != cand.repeat_password) = true
    · simp [register_user, h1, h2]
    · by_cases h3 : (!pyMatchAlnum cand.password) = true
      · simp [register_user, h1, h2, h3]
      · exfalso
        simp [register_user, h1, h2, h3] at h

/-- Witness for C10 at a concrete failing input: a duplicate of the seeded
administrator login leaves the collection untouched and unsaved. -/
theorem register_failure_is_atomic_witness :
    (register_user [adminSeed] candDupAdmin).users = [adminSeed] ∧
    (register_user [adminSeed] candDupAdmin).saved = false :=
  register_failure_is_atomic [adminSeed] candDupAdmin (by decide)

/-- C9: login uniqueness is preserved by `register_user` — starting from a
collection with pairwise distinct logins, the persisted collection after any
registration (successful or failed) still has pairwise distinct logins. -/
theorem register_preserves_login_uniqueness (users : List StoredUser)
    (cand : Candidate)
    (h : users.Pairwise (fun a b => a.login ≠ b.login)) :
    ((register_user users cand).users).Pairwise
      (fun a b => a.login ≠ b.login) := by
  by_cases h1 : users.any (fun u => u.login == cand.login) = true
  · simpa [register_user, h1] using h
  · by_cases h2 : (cand.password != cand.repeat_password) = true
    · simpa [register_user, h1, h2] using h
    · by_cases h3 : (!pyMatchAlnum cand.password) = true
      · simpa [register_user, h1, h2, h3] using h
      · have h1f : users.any (fun u => u.login == cand.login) = false := by
          simpa using h1
        have hfresh : ∀ u ∈ users, u.login ≠ cand.login := by
          intro u hu
          simpa using List.any_eq_false.mp h1f u hu
        have hred : (register_user users cand).users =
            users ++ [finalizeCand cand] := by
          simp [register_user, h1, h2, h3]
        rw [hred, List.pairwise_append]
        refine ⟨h, List.pairwise_singleton _ _, ?_⟩
        intro a ha b hb
        simp only [List.mem_singleton] at hb
        subst hb
        simpa [finalizeCand] using hfresh a ha

/-- Witness for C9 at a concrete input. -/
theorem register_preserves_login_uniqueness_witness :
    ((register_user [adminSeed] candGood).users).Pairwise
      (fun a b => a.login ≠ b.login) :=
  register_preserves_login_uniqueness [adminSeed] candGood (by simp)

/-- C1 (amended): the three validations run in this order with the stated
messages — duplicate login first (regardless of the password checks), then
password-repetition mismatch, then the character-class check, where passing
the character-class check means, per Python's `$` anchor, that the password
minus at most one trailing newline is a non-empty run of `[A-Za-z0-9]`; on
success the appended record drops the repeat-password field, carries role
`"user"`, and the whole collection is persisted. -/
theorem register_validation_order (users : List StoredUser) (cand : Candidate) :
    ((∃ u ∈ users, u.login = cand.login) →
      register_user users cand = ⟨false, "Логин уже существует", users, false⟩) ∧
    ((∀ u ∈ users, u.login ≠ cand.login) →
      cand.password ≠ cand.repeat_password →
      register_user users cand = ⟨false, "Пароли не совпадают", users, false⟩) ∧
    ((∀ u ∈ users, u.login ≠ cand.login) →
      cand.password = cand.repeat_password → ¬LatinBody cand.password →
      register_user users cand =
        ⟨false, "Пароль должен содержать только латинские буквы и цифры",
          users, false⟩) ∧
    ((∀ u ∈ users, u.login ≠ cand.login) →
      cand.password = cand.repeat_password → LatinBody cand.password →
      register_user users cand =
        ⟨true, "Регистрация прошла успешно", users ++ [finalizeCand cand],
          true⟩) := by
  refine ⟨?_, ?_, ?_, ?_⟩
  · intro hdup
    simp [register_user, any_login_eq_true hdup]
  · intro hfresh hne
    have h1 := any_login_eq_false hfresh
    have h2 : (cand.password != cand.repeat_password) = true := by
      simpa [bne_iff_ne] using hne
    simp [register_user, h1, h2]
  · intro hfresh heq hlat
    have h1 := any_login_eq_false hfresh
    have h2 : (cand.password != cand.repeat_password) = false := by
      simp [heq]
    have h3 : pyMatchAlnum cand.password = false := by
      cases hpm : pyMatchAlnum cand.password
      · rfl
      · exact absurd ((pyMatchAlnum_iff _).mp hpm) hlat
    simp [register_user, h1, h2, h3]
  · intro hfresh heq hlat
    have h1 := any_login_eq_false hfresh
    have h2 : (cand.password != cand.repeat_password) = false := by
      simp [heq]
    have h3 := (pyMatchAlnum_iff cand.password).mpr hlat
    simp [register_user, h1, h2, h3]

/-- Witness for C1 at a concrete input: a fresh, well-formed candidate is
accepted, appended with role `"user"` and no repeat-password field, and the
collection is saved. -/
theorem register_validation_order_witness :
    register_user [] candGood =
      ⟨true, "Регистрация прошла успешно", [finalizeCand candGood], true⟩ := by
  have h := (register_validation_order [] candGood).2.2.2
    (by simp) rfl ⟨"abc123".data, Or.inl rfl, by decide, by decide⟩
  simpa using h

/-- Counterexample to C1 as stated: password `"b\n"` contains a character
outside `[A-Za-z0-9]`, equals its repeat field and the login is fresh, yet
registration succeeds instead of failing with the disallowed-characters
message, because Python's `$` permits one final newline. -/
theorem register_newline_password_cex :
    (register_user [] candNewlineB).ok = true ∧
    '\n' ∈ candNewlineB.password.data ∧ isLatinDigit '\n' = false := by
  decide

/-- C4 (amended): with a fresh login and matching repeat field, registration
succeeds exactly when the password minus at most one trailing newline is a
non-empty run of `[A-Za-z0-9]` characters; in particular every non-empty
all-alphanumeric password is accepted, and any other disallowed character
anywhere in the password is rejected. -/
theorem register_password_charset (users : List StoredUser) (cand : Candidate)
    (hfresh : ∀ u ∈ users, u.login ≠ cand.login)
    (hrep : cand.password = cand.repeat_password) :
    (register_user users cand).ok = true ↔ LatinBody cand.password := by
  have h1 := any_login_eq_false hfresh
  have h2 : (cand.password != cand.repeat_password) = false := by
    simp [hrep]
  rw [← pyMatchAlnum_iff]
  constructor
  · intro hok
    cases hpm : pyMatchAlnum cand.password
    · simp [register_user, h1, h2, hpm] at hok
    · rfl
  · intro hm
    simp [register_user, h1, h2, hm]

/-- Witness for C4 at a concrete input: `"abc123"` is accepted. -/
theorem register_password_charset_witness :
    (register_user [] candGood).ok = true :=
  (register_password_charset [] candGood (by simp) rfl).mpr
    ⟨"abc123".data, Or.inl rfl, by decide, by decide⟩

/-- Counterexample to C4 as stated: password `"a\n"` contains a character
outside `[A-Za-z0-9]` (a newline), yet registration accepts it. -/
theorem register_newline_password_charset_cex :
    (register_user [] candNewlineA).ok = true ∧
    '\n' ∈ candNewlineA.password.data ∧ isLatinDigit '\n' = false := by
  decide

lemma login_user_eq_none_iff (users : List StoredUser) (l p : String) :
    login_user users l p = none ↔
      users.find? (fun u => u.login == l && u.password == p) = none := by
  unfold login_user
  cases hf : users.find? (fun u => u.login == l && u.password == p) with
  | none => simp
  | some u =>
    by_cases hr : (u.role == some "admin") = true
    · simp [hr]
    · simp [hr]

lemma find?_append_first {α : Type} (pred : α → Bool) :
    ∀ (pre post : List α) (u : α),
      (∀ w ∈ pre, pred w = false) → pred u = true →
      (pre ++ u :: post).find? pred = some u := by
  intro pre
  induction pre with
  | nil =>
    intro post u _ hu
    simp [List.find?_cons, hu]
  | cons a pre ih =>
    intro post u hpre hu
    have ha := hpre a (List.mem_cons_self a pre)
    rw [List.cons_append, List.find?_cons, ha]
    exact ih post u (fun w hw => hpre w (List.mem_cons_of_mem a hw)) hu

/-- C5: `login_user` returns `none` exactly when no stored account matches
both login and password verbatim; on the first matching record it returns
the admin variant when that record's stored role is `"admin"` and the
regular variant otherwise; and the run never modifies the store. -/
theorem login_user_first_match (users : List StoredUser) (l p : String) :
    ((login_user users l p = none) ↔
      ∀ u ∈ users, ¬(u.login = l ∧ u.password = p)) ∧
    (∀ (pre post : List StoredUser) (u : StoredUser),
      users = pre ++ u :: post →
      (∀ w ∈ pre, ¬(w.login = l ∧ w.password = p)) →
      u.login = l → u.password = p →
      login_user users l p =
        some (if u.role = some "admin" then UserAccount.adminAcct u
          else UserAccount.regularAcct u)) ∧
    (∀ db : Store, db.users = users →
      login_user_db db l p = (login_user users l p, db)) := by
  refine ⟨?_, ?_, ?_⟩
  · rw [login_user_eq_none_iff, List.find?_eq_none]
    constructor
    · intro h u hu hup
      have := h u hu
      simp [hup.1, hup.2] at this
    · intro h u hu
      have := h u hu
      simp only [Bool.and_eq_true, beq_iff_eq]
      exact fun hc => this hc
  · intro pre post u hsplit hpre hl hp
    subst hsplit
    have hu : (u.login == l && u.password == p) = true := by
      simp [hl, hp]
    have hpre' : ∀ w ∈ pre, (w.login == l && w.password == p) = false := by
      intro w hw
      cases hb : (w.login == l && w.password == p)
      · rfl
      · exfalso
        apply hpre w hw
        simpa using hb
    unfold login_user
    rw [find?_append_first (fun u => u.login == l && u.password == p)
      pre post u hpre' hu]
    by_cases hr : u.role = some "admin"
    · simp [hr]
    · simp [hr]
  · intro db hdb
    simp [login_user_db, hdb]

/-- Witness for C5 at a concrete input: the seeded administrator credentials
authenticate to the admin variant. -/
theorem login_user_first_match_witness :
    login_user [adminSeed] "admin" "admin123" =
      some (UserAccount.adminAcct adminSeed) := by
  have h := (login_user_first_match [adminSeed] "admin" "admin123").2.1
    [] [] adminSeed rfl (by simp) rfl rfl
  simpa using h

lemma foldl_add_to_cart (lines : List CartLine) :
    ∀ acc : List CartLine, lines.foldl add_to_cart acc = acc ++ lines := by
  induction lines with
  | nil => intro acc; simp
  | cons l ls ih =>
    intro acc
    rw [List.foldl_cons]
    rw [ih]
    simp [add_to_cart]

lemma cart_total_eq_sum (cart : List CartLine) :
    cart_total cart = (cart.map CartLine.price).sum := by
  have h : ∀ (c : List CartLine) (q : ℚ),
      c.foldl (fun t l => t + l.price) q = q + (c.map CartLine.price).sum := by
    intro c
    induction c with
    | nil => intro q; simp
    | cons x xs ih =>
      intro q
      rw [List.foldl_cons, ih]
      simp [add_assoc]
  simpa [cart_total] using h cart 0

/-- C2: from an empty cart, adding n lines and running the confirm workflow
(the empty-cart gate of `show_order_confirmation` followed by
`confirm_order`) appends exactly one order whose line sequence is the added
lines in order, whose displayed total is the price sum rounded to two
decimals, whose status is "В обработке", whose address is the account's and
whose payment label is the chosen one; the cart is then empty, and a second
confirm on the empty cart fails with the empty-cart message and appends
nothing. -/
theorem cart_confirm_round_trip (u : StoredUser)
    (now payment now2 payment2 : String) (lines : List CartLine)
    (orders : List OrderRec) (h : lines ≠ []) :
    ∃ o : OrderRec,
      checkout u now payment (lines.foldl add_to_cart []) orders =
        (Except.ok o, orders ++ [o], []) ∧
      o.items = lines ∧
      o.items.length = lines.length ∧
      round2 (cart_total o.items) = round2 ((lines.map CartLine.price).sum) ∧
      show_order_confirmation (lines.foldl add_to_cart []) =
        some (round2 ((lines.map CartLine.price).sum)) ∧
      o.status = "В обработке" ∧
      o.address = u.address ∧
      o.payment_method = payment ∧
      o.user = u.login ∧
      o.date = now ∧
      checkout u now2 payment2 [] (orders ++ [o]) =
        (Except.error "Ваша корзина пуста!", orders ++ [o], []) := by
  have hcart : lines.foldl add_to_cart [] = lines := by
    simpa using foldl_add_to_cart lines []
  have hislist : lines.isEmpty = false := by
    cases lines with
    | nil => exact absurd rfl h
    | cons x xs => rfl
  refine ⟨{ user := u.login, date := now, items := lines, address := u.address,
            payment_method := payment, status := "В обработке" },
    ?_, rfl, rfl, ?_, ?_, rfl, rfl, rfl, rfl, rfl, ?_⟩
  · rw [hcart]
    unfold checkout show_order_confirmation confirm_order
    simp [hislist]
  · rw [cart_total_eq_sum]
  · rw [hcart]
    unfold show_order_confirmation
    simp [hislist, cart_total_eq_sum]
  · unfold checkout show_order_confirmation
    simp

/-- Witness for C2 at the specification's concrete scenario: two lines
priced 250.00 and 99.50, confirmed with cash on delivery. -/
theorem cart_confirm_round_trip_witness :
    ∃ o : OrderRec,
      checkout adminSeed "2026-10-12 10:00" "Наличными при получении"
        ([lineA, lineB].foldl add_to_cart []) [] =
        (Except.ok o, [o], []) ∧
      o.items.length = 2 ∧
      show_order_confirmation ([lineA, lineB].foldl add_to_cart []) =
        some (699 / 2 : ℚ) := by
  obtain ⟨o, h1, _hitems, hlen, _hrnd, hconf, _⟩ :=
    cart_confirm_round_trip adminSeed "2026-10-12 10:00"
      "Наличными при получении" "t2" "p2" [lineA, lineB] [] (by simp)
  refine ⟨o, by simpa using h1, by simpa using hlen, ?_⟩
  rw [hconf]
  norm_num [lineA, lineB, round2]

/-- C3 (amended): the empty query clears the results (nothing is published);
a whitespace-only query such as "   " is not treated as blank — it runs as
an ordinary substring search, whose result list is published. -/
theorem handle_search_blank_queries (rs : List RestaurantRec) :
    handle_search rs "" = none ∧
    handle_search rs "   " = some (searchLoop rs "   ") := by
  constructor
  · rfl
  · rfl

/-- Counterexample to C3 as stated: on a catalog whose restaurant name
contains three consecutive spaces, the query "   " yields a non-empty
result sequence rather than the empty one the claim requires for every
collection. -/
theorem handle_search_whitespace_cex :
    handle_search rsSpace "   " =
      some [SearchResult.restaurantHit 1 "A   B" "" (9 / 2 : ℚ)] ∧
    handle_search rsSpace "   " ≠ none ∧
    handle_search rsSpace "   " ≠ some [] := by
  have h1 : handle_search rsSpace "   " =
      some [SearchResult.restaurantHit 1 "A   B" "" (9 / 2 : ℚ)] := rfl
  refine ⟨h1, ?_, ?_⟩
  · rw [h1]
    simp
  · rw [h1]
    simp

lemma menu_foldl_eq (rid : Nat) (rname q : String) (menu : List MenuRec) :
    ∀ acc : List SearchResult,
      menu.foldl
        (fun acc2 m =>
          if strContains (lowerStr m.name) q then
            acc2 ++ [SearchResult.dishHit rid rname m.name m.description
              m.price]
          else acc2)
        acc =
      acc ++ (menu.filter (fun m => strContains (lowerStr m.name) q)).map
        (fun m => SearchResult.dishHit rid rname m.name m.description
          m.price) := by
  induction menu with
  | nil => intro acc; simp
  | cons m ms ih =>
    intro acc
    by_cases hm : strContains (lowerStr m.name) q = true
    · rw [List.foldl_cons, if_pos hm, ih]
      simp [List.filter_cons, hm]
    · rw [List.foldl_cons, if_neg hm, ih]
      simp [List.filter_cons, hm]

lemma searchStep_eq (q : String) (acc : List SearchResult)
    (r : RestaurantRec) :
    searchStep q acc r = acc ++ restaurantBlock q r := by
  unfold searchStep restaurantBlock
  by_cases hr : strContains (lowerStr r.name) q = true
  · rw [if_pos hr, if_pos hr, menu_foldl_eq r.id r.name q r.menu]
    simp
  · rw [if_neg hr, if_neg hr, menu_foldl_eq r.id r.name q r.menu]
    simp

lemma searchLoop_flatMap (rs : List RestaurantRec) (q : String) :
    searchLoop rs q = rs.flatMap (restaurantBlock q) := by
  have h : ∀ (l : List RestaurantRec) (acc : List SearchResult),
      l.foldl (searchStep q) acc = acc ++ l.flatMap (restaurantBlock q) := by
    intro l
    induction l with
    | nil => intro acc; simp
    | cons r l ih =>
      intro acc
      rw [List.foldl_cons, searchStep_eq, ih]
      simp
  simpa [searchLoop] using h rs []

lemma countP_flatMap_eq {α β : Type} (p : β → Bool) (f : α → List β) :
    ∀ l : List α, (l.flatMap f).countP p =
      (l.map (fun a => (f a).countP p)).sum := by
  intro l
  induction l with
  | nil => simp
  | cons a l ih => simp [List.countP_append, ih]

lemma countP_isRestHit_block (q : String) (r : RestaurantRec) :
    (restaurantBlock q r).countP isRestHit =
      if strContains (lowerStr r.name) q then 1 else 0 := by
  unfold restaurantBlock
  rw [List.countP_append, List.countP_map]
  have hz : ((r.menu.filter
      (fun m => strContains (lowerStr m.name) q)).countP
        (isRestHit ∘ fun m => SearchResult.dishHit r.id r.name m.name
          m.description m.price)) = 0 := by
    rw [List.countP_eq_zero]
    intro m _
    simp [isRestHit]
  rw [hz]
  by_cases hr : strContains (lowerStr r.name) q = true
  · rw [if_pos hr, if_pos hr]
    simp [List.countP_cons, isRestHit]
  · rw [if_neg hr, if_neg hr]
    simp

lemma countP_isDishHit_block (q : String) (r : RestaurantRec) :
    (restaurantBlock q r).countP isDishHit =
      (r.menu.filter (fun m => strContains (lowerStr m.name) q)).length := by
  unfold restaurantBlock
  rw [List.countP_append, List.countP_map]
  have hlen : ((r.menu.filter
      (fun m => strContains (lowerStr m.name) q)).countP
        (isDishHit ∘ fun m => SearchResult.dishHit r.id r.name m.name
          m.description m.price)) =
      (r.menu.filter (fun m => strContains (lowerStr m.name) q)).length := by
    rw [List.countP_eq_length]
    intro m _
    simp [isDishHit]
  rw [hlen]
  by_cases hr : strContains (lowerStr r.name) q = true
  · rw [if_pos hr]
    simp [List.countP_cons, isRestHit, isDishHit]
  · rw [if_neg hr]
    simp

lemma lowerStr_eq_empty_iff (s : String) : lowerStr s = "" ↔ s = "" := by
  constructor
  · intro hs
    have hd := congrArg String.data hs
    simp only [lowerStr] at hd
    cases s with
    | mk data =>
      simp only [String.data] at hd
      have : data = [] := by
        cases data with
        | nil => rfl
        | cons c cs => simp at hd
      rw [this]
  · intro hs
    rw [hs]
    rfl

lemma sum_map_ite_one_zero {α : Type} (p : α → Bool) :
    ∀ l : List α, (l.map (fun a => if p a then 1 else 0)).sum = l.countP p := by
  intro l
  induction l with
  | nil => simp
  | cons a l ih =>
    by_cases ha : p a = true
    · simp [ha, ih, List.countP_cons, Nat.add_comm]
    · simp [ha, ih, List.countP_cons]

/-- C6: for a non-blank query the published result sequence decomposes
restaurant by restaurant in persisted order — each restaurant's own hit (one
exactly when its lowered name contains the lowered query) followed by one
dish hit per matching menu item in menu order; the number of
restaurant-kind results equals the number of restaurants whose name matches
case-insensitively, the number of dish-kind results equals the total number
of matching menu items, and two queries with the same lowercasing produce
identical outputs. -/
theorem handle_search_structure (rs : List RestaurantRec) (q q2 : String)
    (h : q ≠ "") :
    handle_search rs q = some (rs.flatMap (restaurantBlock (lowerStr q))) ∧
    (searchLoop rs (lowerStr q)).countP isRestHit =
      rs.countP (fun r => strContains (lowerStr r.name) (lowerStr q)) ∧
    (searchLoop rs (lowerStr q)).countP isDishHit =
      (rs.map (fun r => (r.menu.filter
        (fun m => strContains (lowerStr m.name) (lowerStr q))).length)).sum ∧
    (lowerStr q2 = lowerStr q → handle_search rs q2 = handle_search rs q) := by
  have hq : ¬ lowerStr q = "" := fun hc => h ((lowerStr_eq_empty_iff q).mp hc)
  refine ⟨?_, ?_, ?_, ?_⟩
  · unfold handle_search
    rw [if_neg hq, searchLoop_flatMap]
  · rw [searchLoop_flatMap, countP_flatMap_eq]
    have : (fun r => (restaurantBlock (lowerStr q) r).countP isRestHit) =
        (fun r : RestaurantRec =>
          if strContains (lowerStr r.name) (lowerStr q) then 1 else 0) := by
      funext r
      exact countP_isRestHit_block (lowerStr q) r
    rw [this, sum_map_ite_one_zero]
  · rw [searchLoop_flatMap, countP_flatMap_eq]
    have hfun : (fun r => (restaurantBlock (lowerStr q) r).countP isDishHit) =
        (fun r : RestaurantRec => (r.menu.filter
          (fun m => strContains (lowerStr m.name) (lowerStr q))).length) := by
      funext r
      exact countP_isDishHit_block (lowerStr q) r
    rw [hfun]
  · intro h2
    unfold handle_search
    rw [h2]

/-- Witness for C6 at the specification's concrete scenario: the queries
"Piz" and "piz" against a catalog containing "Pizza Place" and the dish
"Pizza Margherita" give identical results, one restaurant hit and one dish
hit. -/
theorem handle_search_structure_witness :
    handle_search rsPizza "piz" = handle_search rsPizza "Piz" ∧
    (searchLoop rsPizza (lowerStr "Piz")).countP isRestHit = 1 ∧
    (searchLoop rsPizza (lowerStr "Piz")).countP isDishHit = 1 := by
  have h := handle_search_structure rsPizza "Piz" "piz" (by decide)
  refine ⟨h.2.2.2 (by decide), ?_, ?_⟩
  · rw [h.2.1]
    decide
  · rw [h.2.2.1]
    decide

lemma pyStrLe_total : ∀ xs ys : List Char,
    (pyStrLe xs ys || pyStrLe ys xs) = true := by
  intro xs
  induction xs with
  | nil => intro ys; simp [pyStrLe]
  | cons a xs ih =>
    intro ys
    cases ys with
    | nil => simp [pyStrLe]
    | cons b ys =>
      by_cases hab : a.toNat < b.toNat
      · simp [pyStrLe, hab]
      · by_cases hba : b.toNat < a.toNat
        · simp [pyStrLe, hab, hba]
        · simp [pyStrLe, hab, hba, ih ys]

lemma pyStrLe_trans : ∀ xs ys zs : List Char,
    pyStrLe xs ys = true → pyStrLe ys zs = true → pyStrLe xs zs = true := by
  intro xs
  induction xs with
  | nil => intro ys zs _ _; simp [pyStrLe]
  | cons a xs ih =>
    intro ys zs h1 h2
    cases ys with
    | nil => simp [pyStrLe] at h1
    | cons b ys =>
      cases zs with
      | nil => simp [pyStrLe] at h2
      | cons c zs =>
        by_cases hab : a.toNat < b.toNat
        · by_cases hbc : b.toNat < c.toNat
          · have hac : a.toNat < c.toNat := Nat.lt_trans hab hbc
            simp [pyStrLe, hac]
          · by_cases hcb : c.toNat < b.toNat
            · simp [pyStrLe, hbc, hcb] at h2
            · have hbc' : b.toNat = c.toNat :=
                Nat.le_antisymm (Nat.le_of_not_lt hcb) (Nat.le_of_not_lt hbc)
              have hac : a.toNat < c.toNat := hbc' ▸ hab
              simp [pyStrLe, hac]
        · by_cases hba : b.toNat < a.toNat
          · simp [pyStrLe, hab, hba] at h1
          · have hab' : a.toNat = b.toNat :=
              Nat.le_antisymm (Nat.le_of_not_lt hba) (Nat.le_of_not_lt hab)
            have h1' : pyStrLe xs ys = true := by
              simpa [pyStrLe, hab, hba] using h1
            by_cases hbc : b.toNat < c.toNat
            · have hac : a.toNat < c.toNat := hab' ▸ hbc
              simp [pyStrLe, hac]
            · by_cases hcb : c.toNat < b.toNat
              · simp [pyStrLe, hbc, hcb] at h2
              · have hbc' : b.toNat = c.toNat :=
                  Nat.le_antisymm (Nat.le_of_not_lt hcb) (Nat.le_of_not_lt hbc)
                have h2' : pyStrLe ys zs = true := by
                  simpa [pyStrLe, hbc, hcb] using h2
                have hac1 : ¬ a.toNat < c.toNat := by
                  rw [hab', hbc']
                  exact Nat.lt_irrefl _
                have hac2 : ¬ c.toNat < a.toNat := by
                  rw [hab', hbc']
                  exact Nat.lt_irrefl _
                simp [pyStrLe, hac1, hac2, ih ys zs h1' h2']

lemma nameLe_trans : ∀ a b c : RestaurantRec,
    nameLe a b = true → nameLe b c = true → nameLe a c = true :=
  fun _ _ _ => pyStrLe_trans _ _ _

lemma nameLe_total : ∀ a b : RestaurantRec,
    (nameLe a b || nameLe b a) = true :=
  fun _ _ => pyStrLe_total _ _

lemma ratingGeB_trans : ∀ a b c : RestaurantRec,
    ratingGeB a b = true → ratingGeB b c = true → ratingGeB a c = true := by
  intro a b c h1 h2
  simp only [ratingGeB, decide_eq_true_eq] at h1 h2 ⊢
  exact le_trans h2 h1

lemma ratingGeB_total : ∀ a b : RestaurantRec,
    (ratingGeB a b || ratingGeB b a) = true := by
  intro a b
  simp only [ratingGeB, Bool.or_eq_true, decide_eq_true_eq]
  exact le_total (sortRating b) (sortRating a)

/-- C7: sort-by-name returns an ascending permutation of the catalog by the
Python string order of names; sort-by-rating returns a permutation that is
descending on the effective rating (`rating` defaulting to 4.0 for ordering
only), with equal-rating restaurants kept in original relative order; both
are pure — the catalog records themselves come through unchanged. -/
theorem sort_strategies_spec (rs : List RestaurantRec) :
    (SortByName_sort rs).Perm rs ∧
    (SortByName_sort rs).Pairwise (fun a b => nameLe a b = true) ∧
    (SortByRating_sort rs).Perm rs ∧
    (SortByRating_sort rs).Pairwise (fun a b => sortRating b ≤ sortRating a) ∧
    (∀ c : ℚ, (SortByRating_sort rs).filter (fun r => sortRating r == c) =
      rs.filter (fun r => sortRating r == c)) := by
  refine ⟨List.mergeSort_perm rs nameLe, ?_,
    List.mergeSort_perm rs ratingGeB, ?_, ?_⟩
  · exact List.sorted_mergeSort nameLe_trans nameLe_total rs
  · have hs := List.sorted_mergeSort ratingGeB_trans ratingGeB_total rs
    refine hs.imp ?_
    intro a b hab
    simpa [ratingGeB, decide_eq_true_eq] using hab
  · intro c
    have hmem : ∀ x ∈ rs.filter (fun r => sortRating r == c),
        sortRating x = c := by
      intro x hx
      simpa using (List.mem_filter.mp hx).2
    have hpair : (rs.filter (fun r => sortRating r == c)).Pairwise
        (fun a b => ratingGeB a b = true) := by
      apply List.pairwise_of_forall_mem_list
      intro a ha b hb
      simp [ratingGeB, hmem a ha, hmem b hb]
    have hsub2 : List.Sublist (rs.filter (fun r => sortRating r == c))
        (SortByRating_sort rs) :=
      List.sublist_mergeSort ratingGeB_trans ratingGeB_total hpair
        (List.filter_sublist rs)
    have hid : (rs.filter (fun r => sortRating r == c)).filter
        (fun r => sortRating r == c) =
        rs.filter (fun r => sortRating r == c) := by
      apply List.filter_eq_self.mpr
      intro a ha
      exact (List.mem_filter.mp ha).2
    have hsub3 : List.Sublist (rs.filter (fun r => sortRating r == c))
        ((SortByRating_sort rs).filter (fun r => sortRating r == c)) := by
      have h4 := List.Sublist.filter (fun r => sortRating r == c) hsub2
      rwa [hid] at h4
    have hlen : ((SortByRating_sort rs).filter
        (fun r => sortRating r == c)).length =
        (rs.filter (fun r => sortRating r == c)).length :=
      (List.Perm.filter _ (List.mergeSort_perm rs ratingGeB)).length_eq
    exact (hsub3.eq_of_length hlen.symm).symm

lemma length_filter_map_pair (results : List SearchResult) (o : Nat) :
    ∀ observers : List Nat,
      ((observers.map (fun x => (x, results))).filter
        (fun c => c.1 == o)).length = observers.count o := by
  intro observers
  induction observers with
  | nil => simp
  | cons a t ih =>
    by_cases hao : (a == o) = true
    · simp only [List.map_cons, List.filter_cons, hao, List.length_cons, ih]
      rw [List.count_cons]
      simp [hao]
      exact ih
    · simp only [List.map_cons, List.filter_cons, hao, ih]
      rw [List.count_cons]
      simp [hao]
      exact ih

/-- C8: after any sequence of attach/detach calls that yields the registry
`obs`, publishing a result set stores it as the latest value and
synchronously produces one invocation per registration, in registry (attach)
order, each carrying the same published sequence; every observer is called
exactly as many times as it is currently registered. -/
theorem publish_notifies_each_listener (ops : List SubjOp)
    (prev results : List SearchResult) (obs : List Nat)
    (h : applyOps [] ops = some obs) :
    (update_results ⟨obs, prev⟩ results).1.results = results ∧
    (update_results ⟨obs, prev⟩ results).1.observers = obs ∧
    (update_results ⟨obs, prev⟩ results).2 =
      obs.map (fun o => (o, results)) ∧
    (∀ o : Nat, (((update_results ⟨obs, prev⟩ results).2).filter
      (fun c => c.1 == o)).length = obs.count o) ∧
    (∀ c ∈ (update_results ⟨obs, prev⟩ results).2, c.2 = results) := by
  refine ⟨rfl, rfl, rfl, ?_, ?_⟩
  · intro o
    exact length_filter_map_pair results o obs
  · intro c hc
    have hc2 : c ∈ obs.map (fun o => (o, results)) := hc
    obtain ⟨x, _, hx⟩ := List.mem_map.mp hc2
    rw [← hx]

/-- Witness for C8 at a concrete input: attach 1, attach 2, detach 1,
attach 1 leaves the registry [2, 1], and a publish calls 2 then 1 with the
published list. -/
theorem publish_notifies_each_listener_witness :
    applyOps [] [SubjOp.attachOp 1, SubjOp.attachOp 2, SubjOp.detachOp 1,
      SubjOp.attachOp 1] = some [2, 1] ∧
    (update_results ⟨[2, 1], []⟩ []).2 = [(2, []), (1, [])] := by
  refine ⟨by decide, ?_⟩
  have h := publish_notifies_each_listener
    [SubjOp.attachOp 1, SubjOp.attachOp 2, SubjOp.detachOp 1,
      SubjOp.attachOp 1] [] [] [2, 1] (by decide)
  have h3 := h.2.2.1
  rw [h3]
  rfl
